import Mathlib

/-!
# Readiness polling and visibility check of `testlib`

A shallow embedding of `src/testlib/testlib.go`, lines 165-257:

* `WaitSelectorReady` (the poll function it returns),
* `isCouldNotComputeBoxModelError`,
* `callFunctionOnNode`,
* the check closure passed to `WaitSelectorReady` inside `NodeVisibleOrRecaptcha`.

Sequential code is translated to state-passing functions that also record a
trace of the observable operations (lock operations, map lookups, check
invocations, driver requests).  The goroutine fan-out of lines 179-197 is
translated to a step function on an explicit state (goroutines, the channel
`errc`, the receiving loop); an execution is a list of scheduler choices.

Conventions: a Go `error` interface value is an `Option GoError` (`none` is
`nil`); a Go slice result that may be `nil` is an `Option (List _)`.
-/

namespace Testlib

/-! ## Data model -/

/-- Go error values, by dynamic type.  `protocol` is a `*cdproto.Error` (fields
`Code int64`, `Message string`), `chromedp` is a `chromedp.Error` (a string
type), `context` is one of the errors `ctx.Err()` returns, `other` is any other
error type (for instance a wrapped error). -/
inductive GoError where
  | protocol (Code : Int) (Message : String)
  | chromedp (text : String)
  | context (text : String)
  | other (text : String)
deriving DecidableEq

/-- The sentinel `chromedp.ErrNotVisible`, declared upstream as
`Error("not visible")`. -/
def ErrNotVisible : GoError := .chromedp "not visible"

/-- A `cdp.Node`, reduced to the fields that identify it. -/
structure Node where
  NodeID : Int
  NodeName : String
deriving DecidableEq

/-- A `cdp.Frame`, reduced to what the poll function touches: the map `Nodes`
(a lookup of an absent key, or of a key bound to a nil pointer, yields `none`)
and the number of readers currently holding the embedded `sync.RWMutex`. -/
structure Frame where
  Nodes : Int → Option Node
  readers : Nat

/-- Operations of the poll function that the properties talk about.
`check i n` is one invocation of the check function, made by the goroutine
started for slot `i` of `nodes`, on node `n`. -/
inductive Event where
  | rlock
  | runlock
  | lookup (id : Int)
  | check (i : Nat) (n : Node)
deriving DecidableEq

/-- A `context.Context` as the poll function sees it: whether `Done()` is
closed, and the error `Err()` reports once it is. -/
structure Context where
  done : Bool
  cause : GoError
deriving DecidableEq

/-- The method `ctx.Err()`: `nil` until the context is done. -/
def Context.Err (c : Context) : Option GoError :=
  if c.done then some c.cause else none

/-- The type of the `check` argument of `WaitSelectorReady`. -/
abbrev CheckFn := Context → Int → Node → Option GoError

/-! ## `WaitSelectorReady`, lookup phase (lines 167-177) -/

/-- Frame and trace threaded through the lookup phase. -/
structure Mem where
  cur : Frame
  trace : List Event

/-- The call `cur.RLock()`. -/
def Mem.RLock (m : Mem) : Mem :=
  { cur := { m.cur with readers := m.cur.readers + 1 }, trace := m.trace ++ [Event.rlock] }

/-- The call `cur.RUnlock()`. -/
def Mem.RUnlock (m : Mem) : Mem :=
  { cur := { m.cur with readers := m.cur.readers - 1 }, trace := m.trace ++ [Event.runlock] }

/-- The read `cur.Nodes[id]`. -/
def Mem.lookup (m : Mem) (id : Int) : Mem × Option Node :=
  ({ m with trace := m.trace ++ [Event.lookup id] }, m.cur.Nodes id)

/-- The loop of lines 169-176 over the remaining ids; `nodes` holds the slots
already filled.  The result is `none` when the loop body returned from the poll
function (lines 171-175, after unlocking), and the filled slice otherwise. -/
def lookupLoop : List Int → List Node → Mem → Mem × Option (List Node)
  | [], nodes, m => (m, some nodes)
  | id :: ids, nodes, m =>
    match m.lookup id with
    | (m1, some n) => lookupLoop ids (nodes ++ [n]) m1
    | (m1, none) => (m1.RUnlock, none)

/-- Lines 167-177: lock, loop, unlock. -/
def lookupPhase (cur : Frame) (ids : List Int) : Mem × Option (List Node) :=
  match lookupLoop ids [] (Mem.RLock { cur := cur, trace := [] }) with
  | (m, none) => (m, none)
  | (m, some nodes) => (m.RUnlock, some nodes)

/-! ## `WaitSelectorReady`, check phase (lines 179-201) -/

/-- Where the goroutine of lines 182-188 stands.  Go evaluates the right-hand
side of the send case `errc <- check(ctx, execCtx, n)` on entering the `select`
statement, so a goroutine first runs the check (`spawned` to `atSelect r`) and
only then waits for one of the two cases to be ready. -/
inductive Goroutine where
  | spawned
  | atSelect (r : Option GoError)
  | inDone
  | finished
deriving DecidableEq

/-- State of the check phase: the context, one goroutine per slot, the contents
of the channel `errc` (capacity 1), the variable `first`, the number of values
the loop of lines 192-196 has received, and the trace so far. -/
structure PollState where
  ctx : Context
  gs : Nat → Goroutine
  errc : List (Option GoError)
  first : Option GoError
  received : Nat
  trace : List Event

/-- Scheduler choices.  `cancel` is the environment closing `ctx.Done()`;
`evalCheck i` lets goroutine `i` run its check; `selectSend i` and
`selectDone i` are the two cases of its `select`; `sendCtxErr i` is the send of
line 185; `recv` is one receive of line 193. -/
inductive Action where
  | cancel
  | evalCheck (i : Nat)
  | selectSend (i : Nat)
  | selectDone (i : Nat)
  | sendCtxErr (i : Nat)
  | recv
deriving DecidableEq

/-- Update of one goroutine. -/
def setG (gs : Nat → Goroutine) (i : Nat) (g : Goroutine) : Nat → Goroutine :=
  fun j => if j = i then g else gs j

/-- Capacity of `errc`: `make(chan error, 1)`, line 180. -/
def errcCap : Nat := 1

/-- One step of the check phase; `none` when the chosen action cannot proceed
(a send on a full channel, a receive on an empty one, the `ctx.Done()` case
while the context is not done, a goroutine that is not at that point), or when
the receiving loop has already taken its `len(nodes)` values. -/
def step (check : CheckFn) (execCtx : Int) (nodes : List Node) (a : Action)
    (s : PollState) : Option PollState :=
  if nodes.length ≤ s.received then none
  else
    match a with
    | .cancel => some { s with ctx := { s.ctx with done := true } }
    | .evalCheck i =>
      match nodes[i]?, s.gs i with
      | some n, .spawned =>
        some { s with
          gs := setG s.gs i (.atSelect (check s.ctx execCtx n))
          trace := s.trace ++ [Event.check i n] }
      | _, _ => none
    | .selectSend i =>
      match nodes[i]?, s.gs i with
      | some _, .atSelect r =>
        if s.errc.length < errcCap then
          some { s with gs := setG s.gs i .finished, errc := s.errc ++ [r] }
        else none
      | _, _ => none
    | .selectDone i =>
      match nodes[i]?, s.gs i with
      | some _, .atSelect _ =>
        if s.ctx.done then some { s with gs := setG s.gs i .inDone } else none
      | _, _ => none
    | .sendCtxErr i =>
      match nodes[i]?, s.gs i with
      | some _, .inDone =>
        if s.errc.length < errcCap then
          some { s with gs := setG s.gs i .finished, errc := s.errc ++ [s.ctx.Err] }
        else none
      | _, _ => none
    | .recv =>
      match s.errc with
      | [] => none
      | err :: rest =>
        some { s with
          errc := rest
          first := if s.first = none then err else s.first
          received := s.received + 1 }

/-- Run a schedule; `none` when one of its actions cannot proceed. -/
def exec (check : CheckFn) (execCtx : Int) (nodes : List Node) :
    List Action → PollState → Option PollState
  | [], s => some s
  | a :: rest, s => (step check execCtx nodes a s).bind (exec check execCtx nodes rest)

/-- State after line 180 and the `go` statements of lines 181-189. -/
def initState (ctx : Context) (trace : List Event) : PollState :=
  { ctx := ctx, gs := fun _ => .spawned, errc := [], first := none, received := 0,
    trace := trace }

/-- What one call of the poll function produced: the two return values, the
frame as the call left it, and the trace. -/
structure PollResult where
  nodes : Option (List Node)
  err : Option GoError
  cur : Frame
  trace : List Event

/-- The poll function returned by `WaitSelectorReady(s, check)` (the selector
`s` is not used by the body).  `check = none` is a nil check function.  `sched`
resolves the scheduling of the check phase; the result is `none` when `sched`
is not a complete execution of that phase (it is ignored on the paths that
start no goroutine). -/
def WaitSelectorReady (check : Option CheckFn) (ctx : Context) (cur : Frame)
    (execCtx : Int) (ids : List Int) (sched : List Action) : Option PollResult :=
  match lookupPhase cur ids with
  | (m, none) => some { nodes := none, err := none, cur := m.cur, trace := m.trace }
  | (m, some nodes) =>
    match check with
    | none => some { nodes := some nodes, err := none, cur := m.cur, trace := m.trace }
    | some chk =>
      match exec chk execCtx nodes sched (initState ctx m.trace) with
      | none => none
      | some s =>
        if s.received = nodes.length then
          match s.first with
          | some e => some { nodes := none, err := some e, cur := m.cur, trace := s.trace }
          | none => some { nodes := some nodes, err := none, cur := m.cur, trace := s.trace }
        else none

/-- The schedule in which the goroutines run one after the other, in slot
order, each value being received before the next goroutine starts. -/
def seqSchedule (n : Nat) : List Action :=
  (List.range n).flatMap fun i => [Action.evalCheck i, Action.selectSend i, Action.recv]

/-- The check invocations recorded in a trace, as the nodes they were made on. -/
def checkedNodes (tr : List Event) : List Node :=
  tr.filterMap fun ev =>
    match ev with
    | .check _ n => some n
    | _ => none

/-! ## `isCouldNotComputeBoxModelError`, `callFunctionOnNode`, the visibility check -/

/-- Lines 206-209. -/
def isCouldNotComputeBoxModelError (err : GoError) : Bool :=
  match err with
  | .protocol code message => code == -32000 && message == "Could not compute box model."
  | _ => false

/-- A `runtime.RemoteObject`, reduced to its id. -/
structure RemoteObject where
  ObjectID : String
deriving DecidableEq

/-- The browser driver as the code uses it: the answer to each request.  `α`
is the type the caller decodes the function result into. -/
structure Driver (α : Type) where
  GetBoxModel : Int → Except GoError Unit
  ResolveNode : Int → Except GoError RemoteObject
  CallFunctionOn : String → String → List String → Except GoError α
  ReleaseObject : String → Option GoError

/-- Requests sent to the driver. -/
inductive DriverCall where
  | getBoxModel (id : Int)
  | resolveNode (id : Int)
  | callFunctionOn (function : String) (objectID : String)
  | releaseObject (objectID : String)
deriving DecidableEq

/-- Result of `callFunctionOnNode`: the returned error, the value behind `res`
when the call returns, and the requests made. -/
structure CallOutcome (α : Type) where
  err : Option GoError
  res : α
  calls : List DriverCall

/-- Lines 211-233.  `res` is the value behind the out-parameter before the
call; `CallFunctionOn` decodes the function's result into it, so it changes
only when the invocation succeeds.  The answer to the release request of
line 230 is discarded. -/
def callFunctionOnNode {α : Type} (d : Driver α) (node : Node) (function : String)
    (res : α) (args : List String) : CallOutcome α :=
  match d.ResolveNode node.NodeID with
  | .error err => { err := some err, res := res, calls := [.resolveNode node.NodeID] }
  | .ok r =>
    match d.CallFunctionOn function r.ObjectID args with
    | .error err =>
      { err := some err, res := res,
        calls := [.resolveNode node.NodeID, .callFunctionOn function r.ObjectID] }
    | .ok v =>
      match d.ReleaseObject r.ObjectID with
      | _ =>
        { err := none, res := v,
          calls := [.resolveNode node.NodeID, .callFunctionOn function r.ObjectID,
            .releaseObject r.ObjectID] }

/-- Result of the visibility check: the returned error and the requests made. -/
structure CheckOutcome where
  err : Option GoError
  calls : List DriverCall

/-- The closure of lines 236-256.  `visibleJS` is the embedded script
`js/visible.js`. -/
def NodeVisibleOrRecaptcha.check (d : Driver Bool) (visibleJS : String) (n : Node) :
    CheckOutcome :=
  match d.GetBoxModel n.NodeID with
  | .error err =>
    if isCouldNotComputeBoxModelError err then
      { err := some ErrNotVisible, calls := [.getBoxModel n.NodeID] }
    else
      { err := some err, calls := [.getBoxModel n.NodeID] }
  | .ok _ =>
    let out := callFunctionOnNode d n visibleJS false []
    match out.err with
    | some err => { err := some err, calls := .getBoxModel n.NodeID :: out.calls }
    | none =>
      if !out.res then
        { err := some ErrNotVisible, calls := .getBoxModel n.NodeID :: out.calls }
      else
        { err := none, calls := .getBoxModel n.NodeID :: out.calls }

/-- The poll function `NodeVisibleOrRecaptcha` installs (lines 235-257): the
driver may answer differently once the context is done. -/
def NodeVisibleOrRecaptcha (drv : Context → Driver Bool) (visibleJS : String) :
    Context → Frame → Int → List Int → List Action → Option PollResult :=
  WaitSelectorReady (some fun ctx _ n => (NodeVisibleOrRecaptcha.check (drv ctx) visibleJS n).err)

/-! ## Definitions used to state and prove the properties -/

/-- The first non-nil value of a list of received values: what the loop of
lines 191-196 leaves in `first` after receiving them in that order. -/
def firstErr : List (Option GoError) → Option GoError
  | [] => none
  | none :: rest => firstErr rest
  | some e :: _ => some e

/-- What a call returned, without the frame: nodes, error, checked nodes. -/
def PollResult.observed (r : PollResult) : Option (List Node) × Option GoError × List Node :=
  (r.nodes, r.err, checkedNodes r.trace)

/-- The value slot `i` reports while the context stays as `ctx`. -/
def slotVal (check : CheckFn) (execCtx : Int) (nodes : List Node) (ctx : Context)
    (i : Nat) (r : Option GoError) : Prop :=
  ∃ nd, nodes[i]? = some nd ∧ r = check ctx execCtx nd

/-- Invariant of the check phase.  `evald` lists the slots whose check has been
invoked, `rcvd` the (slot, value) pairs the loop has received, in order, and
`buf` the pairs still in the channel; `V i r` is what is known of a value `r`
reported by slot `i`; `pre` is the trace of the lookup phase. -/
structure Inv (check : CheckFn) (execCtx : Int) (nodes : List Node)
    (V : Nat → Option GoError → Prop) (pre : List Event) (s : PollState)
    (evald : List Nat) (rcvd buf : List (Nat × Option GoError)) : Prop where
  evald_nodup : evald.Nodup
  sent_nodup : ((rcvd ++ buf).map Prod.fst).Nodup
  mem_evald : ∀ i, i ∈ evald ↔ i < nodes.length ∧ s.gs i ≠ Goroutine.spawned
  mem_sent : ∀ i, i ∈ (rcvd ++ buf).map Prod.fst ↔ i < nodes.length ∧ s.gs i = Goroutine.finished
  received_eq : s.received = rcvd.length
  errc_eq : s.errc = buf.map Prod.snd
  first_eq : s.first = firstErr (rcvd.map Prod.snd)
  trace_eq : s.trace = pre ++ evald.filterMap fun i => nodes[i]?.map (Event.check i)
  done_of_inDone : ∀ i, s.gs i = Goroutine.inDone → s.ctx.done = true
  val_atSelect : ∀ i r, s.gs i = Goroutine.atSelect r → V i r
  val_sent : ∀ p ∈ rcvd ++ buf, V p.1 p.2

/-- The state of the check phase of a call with a non-nil check after the
scheduler choices `sched`: what `WaitSelectorReady` runs `sched` on.  It is
`none` when an id is missing (no goroutine is started) or when `sched` is not
an execution (one of its actions cannot proceed). -/
def checkPhase (chk : CheckFn) (ctx : Context) (cur : Frame) (execCtx : Int)
    (ids : List Int) (sched : List Action) : Option PollState :=
  match lookupPhase cur ids with
  | (_, none) => none
  | (m, some nodes) => exec chk execCtx nodes sched (initState ctx m.trace)

/-! ## Concrete inputs -/

/-- A node with id 1. -/
def nodeA : Node := { NodeID := 1, NodeName := "INPUT" }

/-- A node with id 2. -/
def nodeB : Node := { NodeID := 2, NodeName := "BUTTON" }

/-- A snapshot holding `nodeA` and `nodeB`, with no reader. -/
def demoFrame : Frame :=
  { Nodes := fun id => if id = 1 then some nodeA else if id = 2 then some nodeB else none,
    readers := 0 }

/-- A context that is not cancelled. -/
def liveCtx : Context := { done := false, cause := .context "context canceled" }

/-- A context that is already cancelled. -/
def doneCtx : Context := { done := true, cause := .context "context canceled" }

/-- A check that returns nil for every node and does not look at the context. -/
def nilCheck : CheckFn := fun _ _ _ => none

/-- A driver for which both nodes have a box model and resolve; the visibility
script answers true for `nodeA` (object "A") and false for `nodeB`. -/
def demoDriver : Driver Bool :=
  { GetBoxModel := fun _ => .ok ()
    ResolveNode := fun id => .ok { ObjectID := if id = 1 then "A" else "B" }
    CallFunctionOn := fun _ objectID _ => .ok (objectID == "A")
    ReleaseObject := fun _ => none }

/-- The visibility check over `demoDriver`. -/
def visibleCheck : CheckFn :=
  fun _ _ n => (NodeVisibleOrRecaptcha.check demoDriver "visible.js" n).err

/-- As `demoDriver`, but every function invocation fails. -/
def throwingDriver : Driver Bool :=
  { demoDriver with CallFunctionOn := fun _ _ _ => .error (.other "exception") }

/-- As `demoDriver`, but no node has a box model. -/
def noBoxDriver : Driver Bool :=
  { demoDriver with
    GetBoxModel := fun _ => .error (GoError.protocol (-32000) "Could not compute box model.") }

/-- As `noBoxDriver`, with the final full stop of the message missing. -/
def wrongMessageDriver : Driver Bool :=
  { demoDriver with
    GetBoxModel := fun _ => .error (GoError.protocol (-32000) "Could not compute box model") }

/-- A release request that succeeds. -/
def releaseOk : String → Option GoError := fun _ => none

/-- A release request that fails. -/
def releaseFails : String → Option GoError :=
  fun _ => some (GoError.protocol (-32000) "Cannot find context with specified id")

/-- The result of polling `[2, 1]` on `demoFrame` with `nilCheck`, slot 1
checked first. -/
def readyResult : PollResult :=
  { nodes := some [nodeB, nodeA], err := none, cur := demoFrame,
    trace := [.rlock, .lookup 2, .lookup 1, .runlock, .check 1 nodeA, .check 0 nodeB] }

/-- The result of polling `[1, 2]` on `demoFrame` with `visibleCheck`, slot 1
checked first. -/
def notVisibleResult : PollResult :=
  { nodes := none, err := some ErrNotVisible, cur := demoFrame,
    trace := [.rlock, .lookup 1, .lookup 2, .runlock, .check 1 nodeB, .check 0 nodeA] }

/-! ## Lemmas -/

/-- The lookup loop either fills every slot, leaving the lock held, or stops at
the first missing id after unlocking; it only appends lookups to the trace. -/
theorem lookupLoop_spec (ids : List Int) : ∀ (nodes : List Node) (m : Mem),
    ∃ ls : List Event, (∀ ev ∈ ls, ∃ id, ev = Event.lookup id) ∧
      (((∀ id ∈ ids, ∃ n, m.cur.Nodes id = some n) ∧
          lookupLoop ids nodes m =
            ({ cur := m.cur, trace := m.trace ++ ls }, some (nodes ++ ids.filterMap m.cur.Nodes))) ∨
       ((∃ id ∈ ids, m.cur.Nodes id = none) ∧
          lookupLoop ids nodes m =
            (Mem.RUnlock { cur := m.cur, trace := m.trace ++ ls }, none))) := by
  induction ids with
  | nil =>
    intro nodes m
    exact ⟨[], by simp, Or.inl ⟨by simp, by simp [lookupLoop]⟩⟩
  | cons id ids ih =>
    intro nodes m
    cases h : m.cur.Nodes id with
    | none =>
      refine ⟨[Event.lookup id], by simp, Or.inr ⟨⟨id, by simp, h⟩, ?_⟩⟩
      simp [lookupLoop, Mem.lookup, h]
    | some n =>
      obtain ⟨ls, hls, hcase⟩ := ih (nodes ++ [n]) { m with trace := m.trace ++ [Event.lookup id] }
      refine ⟨Event.lookup id :: ls, ?_, ?_⟩
      · intro ev hev
        rcases List.mem_cons.mp hev with rfl | hev
        · exact ⟨id, rfl⟩
        · exact hls ev hev
      · rcases hcase with ⟨hall, heq⟩ | ⟨hmiss, heq⟩
        · left
          refine ⟨?_, ?_⟩
          · intro id' hid'
            rcases List.mem_cons.mp hid' with rfl | hid'
            · exact ⟨n, h⟩
            · exact hall id' hid'
          · simp [lookupLoop, Mem.lookup, h, heq, List.filterMap_cons]
        · right
          refine ⟨?_, ?_⟩
          · obtain ⟨id', hid', hnone⟩ := hmiss
            exact ⟨id', List.mem_cons_of_mem _ hid', hnone⟩
          · simp [lookupLoop, Mem.lookup, h, heq]

theorem firstErr_append_singleton (xs : List (Option GoError)) (v : Option GoError) :
    firstErr (xs ++ [v]) = if firstErr xs = none then v else firstErr xs := by
  induction xs with
  | nil => cases v <;> simp [firstErr]
  | cons x xs ih =>
    cases x with
    | none => simpa [firstErr] using ih
    | some e => simp [firstErr]

theorem lt_of_getElem?_some {nodes : List Node} {i : Nat} {nd : Node}
    (h : nodes[i]? = some nd) : i < nodes.length := by
  obtain ⟨hi, _⟩ := List.getElem?_eq_some.mp h
  exact hi

/-- One step keeps the invariant, provided the values a goroutine can report
from the current context satisfy `V`.  Every step other than `cancel` and
`selectDone` adds one to the number of checks invoked, plus the number of
values sent, plus the number of values received. -/
theorem Inv.next {check : CheckFn} {execCtx : Int} {nodes : List Node}
    {V : Nat → Option GoError → Prop} {pre : List Event} {s s' : PollState}
    {evald : List Nat} {rcvd buf : List (Nat × Option GoError)} {a : Action}
    (hI : Inv check execCtx nodes V pre s evald rcvd buf)
    (hE : ∀ i nd, nodes[i]? = some nd → V i (check s.ctx execCtx nd))
    (hD : s.ctx.done = true → ∀ i, V i s.ctx.Err)
    (h : step check execCtx nodes a s = some s') :
    ∃ evald' rcvd' buf', Inv check execCtx nodes V pre s' evald' rcvd' buf' ∧
      (a = Action.cancel ∨ (∃ i, a = Action.selectDone i) ∨
        evald'.length + buf'.length + 2 * rcvd'.length =
          evald.length + buf.length + 2 * rcvd.length + 1) := by
  unfold Testlib.step at h
  split at h
  · exact absurd h (by simp)
  · cases a with
    | cancel =>
      simp only [Option.some.injEq] at h
      subst h
      exact ⟨evald, rcvd, buf, { hI with done_of_inDone := fun _ _ => rfl }, Or.inl rfl⟩
    | evalCheck i =>
      simp only at h
      split at h
      · next nd hn hg =>
        simp only [Option.some.injEq] at h
        subst h
        have hi := lt_of_getElem?_some hn
        have hni : i ∉ evald := fun hm => ((hI.mem_evald i).mp hm).2 hg
        refine ⟨evald ++ [i], rcvd, buf, ?_, Or.inr (Or.inr (by
          simp only [List.length_append, List.length_singleton]; omega))⟩
        constructor
        · exact List.Nodup.append hI.evald_nodup (List.nodup_singleton i) (by simpa using hni)
        · exact hI.sent_nodup
        · intro j
          by_cases hj : j = i
          · subst hj; simp [setG, hi]
          · simp [setG, hj, hI.mem_evald j]
        · intro j
          by_cases hj : j = i
          · subst hj
            have := hI.mem_sent j
            simp [setG, hg] at this ⊢
            exact this
          · simpa [setG, hj] using hI.mem_sent j
        · exact hI.received_eq
        · exact hI.errc_eq
        · exact hI.first_eq
        · simp [hI.trace_eq, List.filterMap_append, hn]
        · intro j hj
          by_cases hji : j = i
          · subst hji; simp [setG] at hj
          · exact hI.done_of_inDone j (by simpa [setG, hji] using hj)
        · intro j r hj
          by_cases hji : j = i
          · subst hji
            simp [setG] at hj
            subst hj
            exact hE j nd hn
          · exact hI.val_atSelect j r (by simpa [setG, hji] using hj)
        · exact hI.val_sent
      · exact absurd h (by simp)
    | selectSend i =>
      simp only at h
      split at h
      · next nd r hn hg =>
        split at h
        · simp only [Option.some.injEq] at h
          subst h
          have hi := lt_of_getElem?_some hn
          have hni : i ∉ (rcvd ++ buf).map Prod.fst := fun hm => by
            have := ((hI.mem_sent i).mp hm).2
            rw [hg] at this
            exact absurd this (by simp)
          refine ⟨evald, rcvd, buf ++ [(i, r)], ?_, Or.inr (Or.inr (by
            simp only [List.length_append, List.length_singleton]; omega))⟩
          constructor
          · exact hI.evald_nodup
          · rw [← List.append_assoc, List.map_append]
            exact List.Nodup.append hI.sent_nodup (by simp) (by simpa using hni)
          · intro j
            by_cases hj : j = i
            · subst hj
              have := hI.mem_evald j
              simp [setG, hg] at this ⊢
              exact this
            · simpa [setG, hj] using hI.mem_evald j
          · intro j
            by_cases hj : j = i
            · subst hj; simp [setG, hi]
            · simpa [setG, hj] using hI.mem_sent j
          · exact hI.received_eq
          · simp [hI.errc_eq]
          · exact hI.first_eq
          · exact hI.trace_eq
          · intro j hj
            by_cases hji : j = i
            · subst hji; simp [setG] at hj
            · exact hI.done_of_inDone j (by simpa [setG, hji] using hj)
          · intro j r' hj
            by_cases hji : j = i
            · subst hji; simp [setG] at hj
            · exact hI.val_atSelect j r' (by simpa [setG, hji] using hj)
          · intro p hp
            rw [← List.append_assoc] at hp
            rcases List.mem_append.mp hp with hp | hp
            · exact hI.val_sent p hp
            · simp at hp
              subst hp
              exact hI.val_atSelect i r hg
        · exact absurd h (by simp)
      · exact absurd h (by simp)
    | selectDone i =>
      simp only at h
      split at h
      · next nd r hn hg =>
        split at h
        · next hdone =>
          simp only [Option.some.injEq] at h
          subst h
          refine ⟨evald, rcvd, buf, ?_, Or.inr (Or.inl ⟨i, rfl⟩)⟩
          constructor
          · exact hI.evald_nodup
          · exact hI.sent_nodup
          · intro j
            by_cases hj : j = i
            · subst hj
              have := hI.mem_evald j
              simp [setG, hg] at this ⊢
              exact this
            · simpa [setG, hj] using hI.mem_evald j
          · intro j
            by_cases hj : j = i
            · subst hj
              have := hI.mem_sent j
              simp [setG, hg] at this ⊢
              exact this
            · simpa [setG, hj] using hI.mem_sent j
          · exact hI.received_eq
          · exact hI.errc_eq
          · exact hI.first_eq
          · exact hI.trace_eq
          · intro j _
            exact hdone
          · intro j r' hj
            by_cases hji : j = i
            · subst hji; simp [setG] at hj
            · exact hI.val_atSelect j r' (by simpa [setG, hji] using hj)
          · exact hI.val_sent
        · exact absurd h (by simp)
      · exact absurd h (by simp)
    | sendCtxErr i =>
      simp only at h
      split at h
      · next nd hn hg =>
        split at h
        · simp only [Option.some.injEq] at h
          subst h
          have hi := lt_of_getElem?_some hn
          have hdone := hI.done_of_inDone i hg
          have hni : i ∉ (rcvd ++ buf).map Prod.fst := fun hm => by
            have := ((hI.mem_sent i).mp hm).2
            rw [hg] at this
            exact absurd this (by simp)
          refine ⟨evald, rcvd, buf ++ [(i, s.ctx.Err)], ?_, Or.inr (Or.inr (by
            simp only [List.length_append, List.length_singleton]; omega))⟩
          constructor
          · exact hI.evald_nodup
          · rw [← List.append_assoc, List.map_append]
            exact List.Nodup.append hI.sent_nodup (by simp) (by simpa using hni)
          · intro j
            by_cases hj : j = i
            · subst hj
              have := hI.mem_evald j
              simp [setG, hg] at this ⊢
              exact this
            · simpa [setG, hj] using hI.mem_evald j
          · intro j
            by_cases hj : j = i
            · subst hj; simp [setG, hi]
            · simpa [setG, hj] using hI.mem_sent j
          · exact hI.received_eq
          · simp [hI.errc_eq]
          · exact hI.first_eq
          · exact hI.trace_eq
          · intro j hj
            by_cases hji : j = i
            · subst hji; simp [setG] at hj
            · exact hI.done_of_inDone j (by simpa [setG, hji] using hj)
          · intro j r' hj
            by_cases hji : j = i
            · subst hji; simp [setG] at hj
            · exact hI.val_atSelect j r' (by simpa [setG, hji] using hj)
          · intro p hp
            rw [← List.append_assoc] at hp
            rcases List.mem_append.mp hp with hp | hp
            · exact hI.val_sent p hp
            · simp at hp
              subst hp
              exact hD hdone i
        · exact absurd h (by simp)
      · exact absurd h (by simp)
    | recv =>
      simp only at h
      split at h
      · exact absurd h (by simp)
      · next err rest herrc =>
        simp only [Option.some.injEq] at h
        subst h
        have hb := hI.errc_eq
        rw [herrc] at hb
        cases buf with
        | nil => simp at hb
        | cons p tl =>
          simp only [List.map_cons, List.cons.injEq] at hb
          refine ⟨evald, rcvd ++ [p], tl, ?_, Or.inr (Or.inr (by
            simp only [List.length_append, List.length_cons, List.length_nil]; omega))⟩
          have happ : (rcvd ++ [p]) ++ tl = rcvd ++ p :: tl := by simp
          constructor
          · exact hI.evald_nodup
          · rw [happ]; exact hI.sent_nodup
          · exact hI.mem_evald
          · rw [happ]; exact hI.mem_sent
          · simp [hI.received_eq]
          · exact hb.2
          · simp only [List.map_append, List.map_cons, List.map_nil]
            rw [firstErr_append_singleton, ← hI.first_eq, hb.1]
          · exact hI.trace_eq
          · exact hI.done_of_inDone
          · exact hI.val_atSelect
          · rw [happ]; exact hI.val_sent

/-- The invariant holds when the goroutines have just been started. -/
theorem Inv.init (check : CheckFn) (execCtx : Int) (nodes : List Node)
    (V : Nat → Option GoError → Prop) (ctx : Context) (pre : List Event) :
    Inv check execCtx nodes V pre (initState ctx pre) [] [] [] := by
  constructor <;> simp [initState, firstErr]

/-- Only `cancel` changes the context. -/
theorem step_ctx {check : CheckFn} {execCtx : Int} {nodes : List Node} {a : Action}
    {s s' : PollState} (h : step check execCtx nodes a s = some s') (ha : a ≠ Action.cancel) :
    s'.ctx = s.ctx := by
  unfold Testlib.step at h
  split at h
  · exact absurd h (by simp)
  · cases a with
    | cancel => exact absurd rfl ha
    | recv =>
      simp only at h
      split at h
      · exact absurd h (by simp)
      · simp only [Option.some.injEq] at h
        subst h
        rfl
    | evalCheck i =>
      simp only at h
      split at h
      · simp only [Option.some.injEq] at h
        subst h
        rfl
      · exact absurd h (by simp)
    | selectSend i =>
      simp only at h
      split at h
      · split at h
        · simp only [Option.some.injEq] at h
          subst h
          rfl
        · exact absurd h (by simp)
      · exact absurd h (by simp)
    | selectDone i =>
      simp only at h
      split at h
      · split at h
        · simp only [Option.some.injEq] at h
          subst h
          rfl
        · exact absurd h (by simp)
      · exact absurd h (by simp)
    | sendCtxErr i =>
      simp only at h
      split at h
      · split at h
        · simp only [Option.some.injEq] at h
          subst h
          rfl
        · exact absurd h (by simp)
      · exact absurd h (by simp)

/-- Every execution keeps the invariant, with no constraint on the values. -/
theorem Inv.exec_any {check : CheckFn} {execCtx : Int} {nodes : List Node} {pre : List Event}
    (sched : List Action) : ∀ {s s' : PollState} {evald : List Nat}
    {rcvd buf : List (Nat × Option GoError)},
    Inv check execCtx nodes (fun _ _ => True) pre s evald rcvd buf →
    exec check execCtx nodes sched s = some s' →
    ∃ evald' rcvd' buf', Inv check execCtx nodes (fun _ _ => True) pre s' evald' rcvd' buf' := by
  induction sched with
  | nil =>
    intro s s' evald rcvd buf hI h
    simp only [exec, Option.some.injEq] at h
    subst h
    exact ⟨_, _, _, hI⟩
  | cons a rest ih =>
    intro s s' evald rcvd buf hI h
    simp only [exec] at h
    cases hs : step check execCtx nodes a s with
    | none => simp [hs] at h
    | some s1 =>
      rw [hs] at h
      obtain ⟨e1, r1, b1, hI1, _⟩ := hI.next (fun _ _ _ => trivial) (fun _ _ => trivial) hs
      exact ih hI1 h

/-- The `ctx.Done()` case is taken only when the context is done. -/
theorem step_selectDone_done {check : CheckFn} {execCtx : Int} {nodes : List Node} {i : Nat}
    {s s' : PollState} (h : step check execCtx nodes (Action.selectDone i) s = some s') :
    s.ctx.done = true := by
  unfold Testlib.step at h
  split at h
  · exact absurd h (by simp)
  · simp only at h
    split at h
    · split at h
      · next hdone => exact hdone
      · exact absurd h (by simp)
    · exact absurd h (by simp)

/-- While the context is not cancelled, every value reported by slot `i` is the
check's result on node `i`, and the number of steps taken is the number of
checks invoked, plus the number of values sent, plus the number of values
received. -/
theorem Inv.exec_quiet {check : CheckFn} {execCtx : Int} {nodes : List Node} {pre : List Event}
    {ctx : Context} (hctx : ctx.done = false)
    (sched : List Action) (hs : Action.cancel ∉ sched) : ∀ {s s' : PollState} {evald : List Nat}
    {rcvd buf : List (Nat × Option GoError)},
    s.ctx = ctx →
    Inv check execCtx nodes (slotVal check execCtx nodes ctx) pre s evald rcvd buf →
    exec check execCtx nodes sched s = some s' →
    ∃ evald' rcvd' buf',
      Inv check execCtx nodes (slotVal check execCtx nodes ctx) pre s' evald' rcvd' buf' ∧
      evald'.length + buf'.length + 2 * rcvd'.length =
        evald.length + buf.length + 2 * rcvd.length + sched.length := by
  induction sched with
  | nil =>
    intro s s' evald rcvd buf _ hI h
    simp only [exec, Option.some.injEq] at h
    subst h
    exact ⟨_, _, _, hI, rfl⟩
  | cons a rest ih =>
    intro s s' evald rcvd buf hc hI h
    simp only [exec] at h
    have ha : a ≠ Action.cancel := fun e => hs (by simp [e])
    have hrest : Action.cancel ∉ rest := fun e => hs (List.mem_cons_of_mem _ e)
    cases hst : step check execCtx nodes a s with
    | none => simp [hst] at h
    | some s1 =>
      rw [hst] at h
      obtain ⟨e1, r1, b1, hI1, hm⟩ := hI.next
        (fun i nd hn => ⟨nd, hn, by rw [hc]⟩)
        (fun hd => by rw [hc, hctx] at hd; exact absurd hd (by simp)) hst
      have hm1 : e1.length + b1.length + 2 * r1.length =
          evald.length + buf.length + 2 * rcvd.length + 1 := by
        rcases hm with hm | ⟨i, hm⟩ | hm
        · exact absurd hm ha
        · subst hm
          have hd := step_selectDone_done hst
          rw [hc, hctx] at hd
          exact absurd hd (by simp)
        · exact hm
      obtain ⟨e2, r2, b2, hI2, hm2⟩ := ih hrest ((step_ctx hst ha).trans hc) hI1 h
      refine ⟨e2, r2, b2, hI2, ?_⟩
      rw [hm2, hm1, List.length_cons]
      omega

/-- The invariant bounds the count of `Inv.exec_quiet` by three per slot. -/
theorem Inv.measure_le {check : CheckFn} {execCtx : Int} {nodes : List Node}
    {V : Nat → Option GoError → Prop} {pre : List Event} {s : PollState}
    {evald : List Nat} {rcvd buf : List (Nat × Option GoError)}
    (hI : Inv check execCtx nodes V pre s evald rcvd buf) :
    evald.length + buf.length + 2 * rcvd.length ≤ 3 * nodes.length ∧
      s.received ≤ nodes.length := by
  have h1 : evald.length ≤ nodes.length := by
    have hsub : evald ⊆ List.range nodes.length := fun i hi =>
      List.mem_range.mpr ((hI.mem_evald i).mp hi).1
    simpa using (List.subperm_of_subset hI.evald_nodup hsub).length_le
  have h2 : rcvd.length + buf.length ≤ nodes.length := by
    have hsub : (rcvd ++ buf).map Prod.fst ⊆ List.range nodes.length := fun i hi =>
      List.mem_range.mpr ((hI.mem_sent i).mp hi).1
    simpa using (List.subperm_of_subset hI.sent_nodup hsub).length_le
  have h3 := hI.received_eq
  constructor <;> omega

/-- When the loop has received `len(nodes)` values, the channel is empty, every
slot has reported exactly once and every check has been invoked exactly once. -/
theorem Inv.terminal {check : CheckFn} {execCtx : Int} {nodes : List Node}
    {V : Nat → Option GoError → Prop} {pre : List Event} {s : PollState}
    {evald : List Nat} {rcvd buf : List (Nat × Option GoError)}
    (hI : Inv check execCtx nodes V pre s evald rcvd buf)
    (hterm : s.received = nodes.length) :
    buf = [] ∧ (rcvd.map Prod.fst).Perm (List.range nodes.length) ∧
      evald.Perm (List.range nodes.length) := by
  have hsub : (rcvd ++ buf).map Prod.fst ⊆ List.range nodes.length := by
    intro i hi
    exact List.mem_range.mpr ((hI.mem_sent i).mp hi).1
  have hsp := List.subperm_of_subset hI.sent_nodup hsub
  have hlen := hsp.length_le
  have hr := hI.received_eq
  simp only [List.length_map, List.length_append, List.length_range] at hlen
  have hbuf : buf = [] := List.eq_nil_of_length_eq_zero (by omega)
  subst hbuf
  simp only [List.append_nil] at hsp hI
  have hperm : (rcvd.map Prod.fst).Perm (List.range nodes.length) :=
    hsp.perm_of_length_le (by simp; omega)
  refine ⟨rfl, hperm, ?_⟩
  refine (List.perm_ext_iff_of_nodup hI.evald_nodup (List.nodup_range _)).mpr ?_
  intro i
  rw [hI.mem_evald i, List.mem_range]
  constructor
  · exact fun h => h.1
  · intro hi
    refine ⟨hi, ?_⟩
    have hm : i ∈ rcvd.map Prod.fst := hperm.mem_iff.mpr (List.mem_range.mpr hi)
    have := (hI.mem_sent i).mp (by simpa using hm)
    rw [this.2]
    simp

/-- The check phase cannot get stuck: in every state an execution reaches
before the receiving loop has all its values, some goroutine or the loop can
take a step. -/
theorem exec_progress (chk : CheckFn) (ctx : Context) (execCtx : Int) (nodes : List Node)
    (pre : List Event) (sched : List Action) (s : PollState)
    (h : exec chk execCtx nodes sched (initState ctx pre) = some s)
    (hlt : s.received < nodes.length) :
    ∃ a, a ≠ Action.cancel ∧ (step chk execCtx nodes a s).isSome = true := by
  obtain ⟨evald, rcvd, buf, hI⟩ := Inv.exec_any sched
    (Inv.init chk execCtx nodes (fun _ _ => True) ctx pre) h
  have hnot : ¬ nodes.length ≤ s.received := by omega
  cases hb : s.errc with
  | cons err rest =>
    exact ⟨Action.recv, by simp, by simp [step, hnot, hb]⟩
  | nil =>
    have hbuf : buf = [] := by
      have := hI.errc_eq
      rw [hb] at this
      simpa using this.symm
    subst hbuf
    have hex : ∃ i, i < nodes.length ∧ s.gs i ≠ Goroutine.finished := by
      by_contra hcon
      push_neg at hcon
      have hsub : List.range nodes.length ⊆ (rcvd ++ []).map Prod.fst := by
        intro i hi
        have hi' := List.mem_range.mp hi
        exact (hI.mem_sent i).mpr ⟨hi', hcon i hi'⟩
      have hle := (List.subperm_of_subset (List.nodup_range _) hsub).length_le
      have hr := hI.received_eq
      simp at hle
      omega
    obtain ⟨i, hi, hg⟩ := hex
    have hn : nodes[i]? = some nodes[i] := List.getElem?_eq_getElem hi
    cases hgi : s.gs i with
    | spawned => exact ⟨Action.evalCheck i, by simp, by simp [step, hnot, hn, hgi]⟩
    | atSelect r =>
      exact ⟨Action.selectSend i, by simp, by simp [step, hnot, hn, hgi, hb, errcCap]⟩
    | inDone =>
      exact ⟨Action.sendCtxErr i, by simp, by simp [step, hnot, hn, hgi, hb, errcCap]⟩
    | finished => exact absurd hgi hg

theorem range_filterMap_getElem? (nodes : List Node) :
    (List.range nodes.length).filterMap (fun i => nodes[i]?) = nodes := by
  induction nodes with
  | nil => simp
  | cons a l ih =>
    rw [List.length_cons, List.range_succ_eq_map, List.filterMap_cons]
    simp only [List.getElem?_cons_zero, List.filterMap_map]
    simp only [List.filterMap_cons, Function.comp_def, Nat.succ_eq_add_one,
      List.getElem?_cons_succ, ih]

theorem checkedNodes_append (a b : List Event) :
    checkedNodes (a ++ b) = checkedNodes a ++ checkedNodes b := by
  simp [checkedNodes, List.filterMap_append]

theorem checkedNodes_checks (nodes : List Node) (evald : List Nat) :
    checkedNodes (evald.filterMap fun i => nodes[i]?.map (Event.check i)) =
      evald.filterMap fun i => nodes[i]? := by
  induction evald with
  | nil => simp [checkedNodes]
  | cons i l ih =>
    cases h : nodes[i]? with
    | none => simpa [List.filterMap_cons, h] using ih
    | some nd =>
      simp only [List.filterMap_cons, h, Option.map_some']
      simp only [checkedNodes, List.filterMap_cons] at ih ⊢
      rw [ih]

theorem exec_append (check : CheckFn) (execCtx : Int) (nodes : List Node)
    (a b : List Action) (s : PollState) :
    exec check execCtx nodes (a ++ b) s =
      (exec check execCtx nodes a s).bind (exec check execCtx nodes b) := by
  induction a generalizing s with
  | nil => simp [exec]
  | cons x a ih =>
    simp only [List.cons_append, exec]
    cases step check execCtx nodes x s with
    | none => simp
    | some s1 => simpa using ih s1

theorem seqSchedule_succ (k : Nat) :
    seqSchedule (k + 1) =
      seqSchedule k ++ [Action.evalCheck k, Action.selectSend k, Action.recv] := by
  simp [seqSchedule, List.range_succ, List.flatMap_append]

theorem seqSchedule_no_cancel (n : Nat) : Action.cancel ∉ seqSchedule n := by
  simp [seqSchedule, List.mem_flatMap]

/-- The sequential schedule is an execution, and it is complete. -/
theorem exec_seqSchedule (check : CheckFn) (execCtx : Int) (nodes : List Node)
    (ctx : Context) (pre : List Event) (k : Nat) (hk : k ≤ nodes.length) :
    ∃ s, exec check execCtx nodes (seqSchedule k) (initState ctx pre) = some s ∧
      s.received = k ∧ s.errc = [] ∧ ∀ i, k ≤ i → s.gs i = Goroutine.spawned := by
  induction k with
  | zero => exact ⟨initState ctx pre, by simp [seqSchedule, exec], rfl, rfl, fun _ _ => rfl⟩
  | succ k ih =>
    obtain ⟨s, hs, hr, he, hg⟩ := ih (by omega)
    have hlt : k < nodes.length := by omega
    have hn : nodes[k]? = some nodes[k] := List.getElem?_eq_getElem hlt
    have hnot : ¬ nodes.length ≤ s.received := by omega
    rw [seqSchedule_succ, exec_append, hs]
    simp only [Option.some_bind, exec]
    have h1 : step check execCtx nodes (Action.evalCheck k) s =
        some { s with
          gs := setG s.gs k (.atSelect (check s.ctx execCtx nodes[k]))
          trace := s.trace ++ [Event.check k nodes[k]] } := by
      simp [step, hnot, hn, hg k (le_refl k)]
    rw [h1]
    simp only [Option.some_bind]
    have h2 : step check execCtx nodes (Action.selectSend k)
        { s with
          gs := setG s.gs k (.atSelect (check s.ctx execCtx nodes[k]))
          trace := s.trace ++ [Event.check k nodes[k]] } =
        some { s with
          gs := setG (setG s.gs k (.atSelect (check s.ctx execCtx nodes[k]))) k .finished
          errc := [check s.ctx execCtx nodes[k]]
          trace := s.trace ++ [Event.check k nodes[k]] } := by
      simp [step, hnot, hn, setG, he, errcCap]
    rw [h2]
    simp only [Option.some_bind]
    have h3 : step check execCtx nodes Action.recv
        { s with
          gs := setG (setG s.gs k (.atSelect (check s.ctx execCtx nodes[k]))) k .finished
          errc := [check s.ctx execCtx nodes[k]]
          trace := s.trace ++ [Event.check k nodes[k]] } =
        some { s with
          gs := setG (setG s.gs k (.atSelect (check s.ctx execCtx nodes[k]))) k .finished
          errc := []
          first := if s.first = none then check s.ctx execCtx nodes[k] else s.first
          received := s.received + 1
          trace := s.trace ++ [Event.check k nodes[k]] } := by
      simp [step, hnot]
    rw [h3]
    refine ⟨_, rfl, ?_, rfl, ?_⟩
    · simp [hr]
    · intro i hi
      have hik : i ≠ k := by omega
      simp [setG, hik, hg i (by omega)]

/-- The lookup phase leaves the frame as it found it and its trace is the
acquisition, lookups, the release; it yields the resolved nodes exactly when no
id is missing. -/
theorem lookupPhase_spec (cur : Frame) (ids : List Int) :
    ∃ ls : List Event, (∀ ev ∈ ls, ∃ id, ev = Event.lookup id) ∧
      (((∀ id ∈ ids, ∃ n, cur.Nodes id = some n) ∧
          lookupPhase cur ids =
            ({ cur := cur, trace := Event.rlock :: ls ++ [Event.runlock] },
              some (ids.filterMap cur.Nodes))) ∨
       ((∃ id ∈ ids, cur.Nodes id = none) ∧
          lookupPhase cur ids =
            ({ cur := cur, trace := Event.rlock :: ls ++ [Event.runlock] }, none))) := by
  obtain ⟨ls, hls, hcase⟩ := lookupLoop_spec ids [] (Mem.RLock { cur := cur, trace := [] })
  refine ⟨ls, hls, ?_⟩
  rcases hcase with ⟨hall, heq⟩ | ⟨hmiss, heq⟩
  · left
    refine ⟨hall, ?_⟩
    simp only [lookupPhase, heq]
    simp [Mem.RUnlock, Mem.RLock]
  · right
    refine ⟨hmiss, ?_⟩
    simp only [lookupPhase, heq]
    simp [Mem.RUnlock, Mem.RLock]

theorem map_eq_map_some_filterMap (cur : Frame) (ids : List Int)
    (hall : ∀ id ∈ ids, ∃ n, cur.Nodes id = some n) :
    ids.map cur.Nodes = (ids.filterMap cur.Nodes).map some ∧
      (ids.filterMap cur.Nodes).length = ids.length := by
  induction ids with
  | nil => simp
  | cons id ids ih =>
    obtain ⟨n, hn⟩ := hall id (by simp)
    have := ih (fun id' h => hall id' (List.mem_cons_of_mem _ h))
    simp [List.filterMap_cons, hn, this.1, this.2]

theorem mem_filterMap_nodes {cur : Frame} {ids : List Int} {nd : Node}
    (h : nd ∈ ids.filterMap cur.Nodes) : ∃ id ∈ ids, cur.Nodes id = some nd := by
  simpa [List.mem_filterMap] using h

theorem checkedNodes_lookups (ls : List Event) (hls : ∀ ev ∈ ls, ∃ id, ev = Event.lookup id) :
    checkedNodes (Event.rlock :: ls ++ [Event.runlock]) = [] := by
  simp only [checkedNodes, List.filterMap_eq_nil_iff]
  intro ev hev
  simp only [List.cons_append, List.mem_cons, List.mem_append, List.mem_singleton,
    List.not_mem_nil, or_false] at hev
  rcases hev with rfl | hev | rfl
  · rfl
  · obtain ⟨id, rfl⟩ := hls ev hev
    rfl
  · rfl

theorem WaitSelectorReady_checked {chk : CheckFn} {ctx : Context} {cur : Frame}
    {execCtx : Int} {ids : List Int} {sched : List Action} {m : Mem} {nodes : List Node}
    {res : PollResult} (hlp : lookupPhase cur ids = (m, some nodes))
    (h : WaitSelectorReady (some chk) ctx cur execCtx ids sched = some res) :
    ∃ s, exec chk execCtx nodes sched (initState ctx m.trace) = some s ∧
      s.received = nodes.length ∧ res.err = s.first ∧
      res.nodes = (if s.first = none then some nodes else none) ∧
      res.cur = m.cur ∧ res.trace = s.trace := by
  simp only [WaitSelectorReady, hlp] at h
  cases hs : exec chk execCtx nodes sched (initState ctx m.trace) with
  | none => simp [hs] at h
  | some s =>
    rw [hs] at h
    simp only at h
    split at h
    · next hterm =>
      refine ⟨s, rfl, hterm, ?_⟩
      cases hf : s.first with
      | none =>
        rw [hf] at h
        simp only [Option.some.injEq] at h
        subst h
        simp
      | some e =>
        rw [hf] at h
        simp only [Option.some.injEq] at h
        subst h
        simp
    · exact absurd h (by simp)

/-- For every input the poll function returns under the sequential schedule. -/
theorem WaitSelectorReady_seqSchedule (check : Option CheckFn) (ctx : Context) (cur : Frame)
    (execCtx : Int) (ids : List Int) :
    (WaitSelectorReady check ctx cur execCtx ids (seqSchedule ids.length)).isSome = true := by
  obtain ⟨ls, _, hcase⟩ := lookupPhase_spec cur ids
  rcases hcase with ⟨hall, heq⟩ | ⟨_, heq⟩
  · cases check with
    | none => simp [WaitSelectorReady, heq]
    | some chk =>
      have hlen := (map_eq_map_some_filterMap cur ids hall).2
      obtain ⟨s, hs, hr, _, _⟩ := exec_seqSchedule chk execCtx (ids.filterMap cur.Nodes) ctx
        (Event.rlock :: ls ++ [Event.runlock]) ids.length (by omega)
      simp only [WaitSelectorReady, heq, hs]
      rw [if_pos (by omega)]
      cases s.first <;> simp
  · simp [WaitSelectorReady, heq]

/-- Any complete execution of the check phase: the trace after the lookup phase
holds one check per slot, and the result is the first non-nil value in the
order the values were received. -/
theorem WaitSelectorReady_run {chk : CheckFn} {ctx : Context} {cur : Frame}
    {execCtx : Int} {ids : List Int} {sched : List Action} {res : PollResult}
    (hall : ∀ id ∈ ids, ∃ n, cur.Nodes id = some n)
    (h : WaitSelectorReady (some chk) ctx cur execCtx ids sched = some res) :
    ∃ (ls : List Event) (evald : List Nat) (rcvd : List (Nat × Option GoError)),
      (∀ ev ∈ ls, ∃ id, ev = Event.lookup id) ∧
      evald.Perm (List.range ids.length) ∧
      (rcvd.map Prod.fst).Perm (List.range ids.length) ∧
      res.cur = cur ∧
      res.trace = (Event.rlock :: ls ++ [Event.runlock]) ++
        evald.filterMap (fun i => (ids.filterMap cur.Nodes)[i]?.map (Event.check i)) ∧
      res.err = firstErr (rcvd.map Prod.snd) ∧
      res.nodes = (if res.err = none then some (ids.filterMap cur.Nodes) else none) ∧
      (ctx.done = false → Action.cancel ∉ sched →
        ∀ p ∈ rcvd, slotVal chk execCtx (ids.filterMap cur.Nodes) ctx p.1 p.2) := by
  obtain ⟨ls, hls, hcase⟩ := lookupPhase_spec cur ids
  rcases hcase with ⟨_, heq⟩ | ⟨⟨id, hid, hnone⟩, _⟩
  · have hlen := (map_eq_map_some_filterMap cur ids hall).2
    obtain ⟨s, hs, hterm, herr, hnodes, hcur, htrace⟩ := WaitSelectorReady_checked heq h
    simp only at hs hcur htrace
    by_cases hq : ctx.done = false ∧ Action.cancel ∉ sched
    · obtain ⟨evald, rcvd, buf, hI, _⟩ := Inv.exec_quiet hq.1 sched hq.2 rfl
        (Inv.init chk execCtx (ids.filterMap cur.Nodes)
          (slotVal chk execCtx (ids.filterMap cur.Nodes) ctx) ctx
          (Event.rlock :: ls ++ [Event.runlock])) hs
      obtain ⟨hbuf, hperm, hev⟩ := hI.terminal hterm
      subst hbuf
      refine ⟨ls, evald, rcvd, hls, hlen ▸ hev, hlen ▸ hperm, hcur, ?_, ?_, ?_, ?_⟩
      · rw [htrace, hI.trace_eq]
      · rw [herr, hI.first_eq]
      · rw [hnodes, herr]
      · intro _ _ p hp
        exact hI.val_sent p (by simpa using hp)
    · obtain ⟨evald, rcvd, buf, hI⟩ := Inv.exec_any sched
        (Inv.init chk execCtx (ids.filterMap cur.Nodes) (fun _ _ => True) ctx
          (Event.rlock :: ls ++ [Event.runlock])) hs
      obtain ⟨hbuf, hperm, hev⟩ := hI.terminal hterm
      subst hbuf
      refine ⟨ls, evald, rcvd, hls, hlen ▸ hev, hlen ▸ hperm, hcur, ?_, ?_, ?_, ?_⟩
      · rw [htrace, hI.trace_eq]
      · rw [herr, hI.first_eq]
      · rw [hnodes, herr]
      · intro h1 h2
        exact absurd ⟨h1, h2⟩ hq
  · obtain ⟨n, hn⟩ := hall id hid
    rw [hn] at hnone
    exact absurd hnone (by simp)

theorem checkedNodes_run (nodes : List Node) (ls : List Event) (evald : List Nat)
    (hls : ∀ ev ∈ ls, ∃ id, ev = Event.lookup id)
    (hev : evald.Perm (List.range nodes.length)) :
    (checkedNodes ((Event.rlock :: ls ++ [Event.runlock]) ++
      evald.filterMap (fun i => nodes[i]?.map (Event.check i)))).Perm nodes := by
  rw [checkedNodes_append, checkedNodes_lookups ls hls, checkedNodes_checks, List.nil_append]
  have := hev.filterMap (fun i => nodes[i]?)
  rwa [range_filterMap_getElem?] at this

theorem firstErr_eq_none {l : List (Option GoError)} (h : ∀ v ∈ l, v = none) :
    firstErr l = none := by
  induction l with
  | nil => rfl
  | cons v l ih =>
    have hv := h v (by simp)
    subst hv
    simpa [firstErr] using ih (fun w hw => h w (List.mem_cons_of_mem _ hw))

theorem firstErr_eq_some {l : List (Option GoError)} {e : GoError}
    (h : ∀ v ∈ l, v = none ∨ v = some e) (hmem : some e ∈ l) : firstErr l = some e := by
  induction l with
  | nil => simp at hmem
  | cons v l ih =>
    rcases h v (by simp) with hv | hv
    · subst hv
      have hmem' : some e ∈ l := by simpa using hmem
      simpa [firstErr] using ih (fun w hw => h w (List.mem_cons_of_mem _ hw)) hmem'
    · subst hv
      simp [firstErr]

/-- Whatever the context and the schedule, a call that returns has invoked the
check on every resolved node, once per slot: no slot reports before its check
has run, cancelled context or not. -/
theorem WaitSelectorReady_checks_every_node {chk : CheckFn} {ctx : Context} {cur : Frame}
    {execCtx : Int} {ids : List Int} {sched : List Action} {res : PollResult}
    (hall : ∀ id ∈ ids, ∃ n, cur.Nodes id = some n)
    (h : WaitSelectorReady (some chk) ctx cur execCtx ids sched = some res) :
    (checkedNodes res.trace).Perm (ids.filterMap cur.Nodes) := by
  obtain ⟨ls, evald, _, hls, hev, _, _, htrace, _⟩ := WaitSelectorReady_run hall h
  rw [htrace]
  exact checkedNodes_run _ ls evald hls ((map_eq_map_some_filterMap cur ids hall).2 ▸ hev)

/-- The requests `callFunctionOnNode` makes when the invocation fails: no
release request. -/
theorem callFunctionOnNode_of_failure {α : Type} (d : Driver α) (node : Node)
    (function : String) (res : α) (args : List String) (r : RemoteObject) (e : GoError)
    (hres : d.ResolveNode node.NodeID = .ok r)
    (hcall : d.CallFunctionOn function r.ObjectID args = .error e) :
    (callFunctionOnNode d node function res args).err = some e ∧
    (callFunctionOnNode d node function res args).calls =
      [DriverCall.resolveNode node.NodeID, DriverCall.callFunctionOn function r.ObjectID] := by
  simp [callFunctionOnNode, hres, hcall]

/-- The requests `callFunctionOnNode` makes when the invocation succeeds: the
release request follows the invocation. -/
theorem callFunctionOnNode_of_success {α : Type} (d : Driver α) (node : Node)
    (function : String) (res : α) (args : List String) (r : RemoteObject) (v : α)
    (hres : d.ResolveNode node.NodeID = .ok r)
    (hcall : d.CallFunctionOn function r.ObjectID args = .ok v) :
    (callFunctionOnNode d node function res args).err = none ∧
    (callFunctionOnNode d node function res args).res = v ∧
    (callFunctionOnNode d node function res args).calls =
      [DriverCall.resolveNode node.NodeID, DriverCall.callFunctionOn function r.ObjectID,
        DriverCall.releaseObject r.ObjectID] := by
  simp [callFunctionOnNode, hres, hcall]

/-- The poll function returns under `sched` exactly when `sched` is an execution
at whose end the loop has received one value per node. -/
theorem WaitSelectorReady_isSome_iff {chk : CheckFn} {ctx : Context} {cur : Frame}
    {execCtx : Int} {ids : List Int} {sched : List Action} {m : Mem} {nodes : List Node}
    {s : PollState} (hlp : lookupPhase cur ids = (m, some nodes))
    (hs : exec chk execCtx nodes sched (initState ctx m.trace) = some s) :
    (WaitSelectorReady (some chk) ctx cur execCtx ids sched).isSome = true ↔
      s.received = nodes.length := by
  simp only [WaitSelectorReady, hlp, hs]
  by_cases hr : s.received = nodes.length
  · rw [if_pos hr]
    cases s.first <;> simp [hr]
  · rw [if_neg hr]
    simp [hr]

/-- Total correctness of the check phase while the context is not cancelled:
the phase starts; an execution has at most three steps per node (check, send,
receive); whenever the poll function has not returned yet, some goroutine or
the receiving loop can take a step; hence every execution extends to one under
which the poll function returns. -/
theorem checkPhase_total (chk : CheckFn) (ctx : Context) (cur : Frame) (execCtx : Int)
    (ids : List Int) (hctx : ctx.done = false)
    (hall : ∀ id ∈ ids, ∃ n, cur.Nodes id = some n) :
    (checkPhase chk ctx cur execCtx ids []).isSome = true ∧
    ∀ sched, Action.cancel ∉ sched →
      (checkPhase chk ctx cur execCtx ids sched).isSome = true →
      sched.length ≤ 3 * ids.length ∧
      ((WaitSelectorReady (some chk) ctx cur execCtx ids sched).isSome = false →
        ∃ a, a ≠ Action.cancel ∧
          (checkPhase chk ctx cur execCtx ids (sched ++ [a])).isSome = true) ∧
      ∃ more, Action.cancel ∉ more ∧
        (WaitSelectorReady (some chk) ctx cur execCtx ids (sched ++ more)).isSome = true := by
  obtain ⟨ls, _, hcase⟩ := lookupPhase_spec cur ids
  have hlen := (map_eq_map_some_filterMap cur ids hall).2
  rcases hcase with ⟨_, heq⟩ | ⟨⟨id, hid, hnone⟩, _⟩
  · have hcp : ∀ sched, checkPhase chk ctx cur execCtx ids sched =
        exec chk execCtx (ids.filterMap cur.Nodes) sched
          (initState ctx (Event.rlock :: ls ++ [Event.runlock])) := by
      intro sched
      simp only [checkPhase, heq]
    have part2 : ∀ sched, Action.cancel ∉ sched →
        (checkPhase chk ctx cur execCtx ids sched).isSome = true →
        sched.length ≤ 3 * ids.length ∧
        ((WaitSelectorReady (some chk) ctx cur execCtx ids sched).isSome = false →
          ∃ a, a ≠ Action.cancel ∧
            (checkPhase chk ctx cur execCtx ids (sched ++ [a])).isSome = true) := by
      intro sched hc hv
      rw [hcp] at hv
      obtain ⟨s, hs⟩ := Option.isSome_iff_exists.mp hv
      obtain ⟨evald, rcvd, buf, hI, hm⟩ := Inv.exec_quiet hctx sched hc rfl
        (Inv.init chk execCtx (ids.filterMap cur.Nodes)
          (slotVal chk execCtx (ids.filterMap cur.Nodes) ctx) ctx
          (Event.rlock :: ls ++ [Event.runlock])) hs
      have hb := hI.measure_le
      simp only [List.length_nil] at hm
      refine ⟨by omega, ?_⟩
      intro hw
      have hne : s.received ≠ (ids.filterMap cur.Nodes).length := by
        intro heq'
        have := (WaitSelectorReady_isSome_iff heq hs).mpr heq'
        rw [this] at hw
        exact absurd hw (by simp)
      obtain ⟨a, ha, hstep⟩ := exec_progress chk ctx execCtx (ids.filterMap cur.Nodes)
        (Event.rlock :: ls ++ [Event.runlock]) sched s hs (by omega)
      refine ⟨a, ha, ?_⟩
      rw [hcp, exec_append, hs]
      simp only [Option.some_bind, exec]
      obtain ⟨s1, hs1⟩ := Option.isSome_iff_exists.mp hstep
      simp [hs1]
    have part3 : ∀ k sched, 3 * ids.length - sched.length = k → Action.cancel ∉ sched →
        (checkPhase chk ctx cur execCtx ids sched).isSome = true →
        ∃ more, Action.cancel ∉ more ∧
          (WaitSelectorReady (some chk) ctx cur execCtx ids (sched ++ more)).isSome = true := by
      intro k
      induction k with
      | zero =>
        intro sched hk hc hv
        obtain ⟨_, hprog⟩ := part2 sched hc hv
        by_cases hw : (WaitSelectorReady (some chk) ctx cur execCtx ids sched).isSome = true
        · exact ⟨[], by simp, by simpa using hw⟩
        · obtain ⟨a, ha, hva⟩ := hprog (by simpa using hw)
          have hc' : Action.cancel ∉ sched ++ [a] := by
            simp only [List.mem_append, List.mem_singleton, not_or]
            exact ⟨hc, fun h => ha h.symm⟩
          have := (part2 (sched ++ [a]) hc' hva).1
          simp only [List.length_append, List.length_singleton] at this
          omega
      | succ k ih =>
        intro sched hk hc hv
        obtain ⟨_, hprog⟩ := part2 sched hc hv
        by_cases hw : (WaitSelectorReady (some chk) ctx cur execCtx ids sched).isSome = true
        · exact ⟨[], by simp, by simpa using hw⟩
        · obtain ⟨a, ha, hva⟩ := hprog (by simpa using hw)
          have hc' : Action.cancel ∉ sched ++ [a] := by
            simp only [List.mem_append, List.mem_singleton, not_or]
            exact ⟨hc, fun h => ha h.symm⟩
          obtain ⟨more, hmc, hmw⟩ := ih (sched ++ [a])
            (by simp only [List.length_append, List.length_singleton]; omega) hc' hva
          refine ⟨a :: more, ?_, ?_⟩
          · simp only [List.mem_cons, not_or]
            exact ⟨fun h => ha h.symm, hmc⟩
          · simpa using hmw
    refine ⟨by rw [hcp]; rfl, ?_⟩
    intro sched hc hv
    obtain ⟨hle, hprog⟩ := part2 sched hc hv
    exact ⟨hle, hprog, part3 _ sched rfl hc hv⟩
  · obtain ⟨n, hn⟩ := hall id hid
    rw [hn] at hnone
    exact absurd hnone (by simp)

theorem present_of_ne_none {cur : Frame} {ids : List Int}
    (h : ∀ id ∈ ids, cur.Nodes id ≠ none) : ∀ id ∈ ids, ∃ n, cur.Nodes id = some n := by
  intro id hid
  cases hn : cur.Nodes id with
  | none => exact absurd hn (h id hid)
  | some n => exact ⟨n, rfl⟩

/-! ## The properties -/

/-- C1: when at least one requested id is absent from the snapshot, the poll
function returns `(nil, nil)` and invokes the check function zero times, for
every check function (nil or not), context and scheduling. -/
theorem WaitSelectorReady_miss (check : Option CheckFn) (ctx : Context) (cur : Frame)
    (execCtx : Int) (ids : List Int) (sched : List Action)
    (hmiss : ∃ id ∈ ids, cur.Nodes id = none) :
    ∃ res, WaitSelectorReady check ctx cur execCtx ids sched = some res ∧
      res.nodes = none ∧ res.err = none ∧ checkedNodes res.trace = [] ∧
      ∀ i n, Event.check i n ∉ res.trace := by
  obtain ⟨ls, hls, hcase⟩ := lookupPhase_spec cur ids
  rcases hcase with ⟨hall, _⟩ | ⟨_, heq⟩
  · obtain ⟨id, hid, hnone⟩ := hmiss
    obtain ⟨n, hn⟩ := hall id hid
    rw [hn] at hnone
    exact absurd hnone (by simp)
  · refine ⟨(⟨none, none, cur, Event.rlock :: ls ++ [Event.runlock]⟩ : PollResult),
      by simp only [WaitSelectorReady, heq], rfl, rfl, checkedNodes_lookups ls hls, ?_⟩
    intro i n hmem
    simp only [List.cons_append, List.mem_cons, List.mem_append, List.mem_singleton,
      List.not_mem_nil, or_false] at hmem
    rcases hmem with h | h | h
    · exact absurd h (by simp)
    · obtain ⟨id, hid⟩ := hls _ h
      exact absurd hid (by simp)
    · exact absurd h (by simp)

theorem WaitSelectorReady_miss_witness :
    (∃ id ∈ [1, 3], demoFrame.Nodes id = none) ∧
    ∃ res, WaitSelectorReady (some visibleCheck) liveCtx demoFrame 0 [1, 3] [] = some res ∧
      res.nodes = none ∧ res.err = none ∧ checkedNodes res.trace = [] ∧
      ∀ i n, Event.check i n ∉ res.trace :=
  ⟨⟨3, by simp, by decide⟩,
   WaitSelectorReady_miss (some visibleCheck) liveCtx demoFrame 0 [1, 3] []
     ⟨3, by simp, by decide⟩⟩

/-- C2: when every id is present, the check returns nil for every resolved
node and the context is not cancelled, the poll function returns, whatever the
scheduling: the check phase starts; every execution of it has at most three
steps per node; while the poll function has not returned some goroutine or the
receiving loop can take a step, so every execution extends to one under which
it returns.  Whenever it returns, it returns no error and the node list of the
same length as the id list whose i-th element is the snapshot's node for the
i-th id, and the check invocations are exactly the resolved nodes, one
invocation per slot. -/
theorem WaitSelectorReady_all_ready (chk : CheckFn) (ctx : Context) (cur : Frame)
    (execCtx : Int) (ids : List Int)
    (hctx : ctx.done = false)
    (hall : ∀ id ∈ ids, cur.Nodes id ≠ none)
    (hchk : ∀ id ∈ ids, ∀ n, cur.Nodes id = some n → chk ctx execCtx n = none) :
    (checkPhase chk ctx cur execCtx ids []).isSome = true ∧
    (∀ sched, Action.cancel ∉ sched →
      (checkPhase chk ctx cur execCtx ids sched).isSome = true →
      sched.length ≤ 3 * ids.length ∧
      ((WaitSelectorReady (some chk) ctx cur execCtx ids sched).isSome = false →
        ∃ a, a ≠ Action.cancel ∧
          (checkPhase chk ctx cur execCtx ids (sched ++ [a])).isSome = true) ∧
      ∃ more, Action.cancel ∉ more ∧
        (WaitSelectorReady (some chk) ctx cur execCtx ids (sched ++ more)).isSome = true) ∧
    ∀ sched res, Action.cancel ∉ sched →
      WaitSelectorReady (some chk) ctx cur execCtx ids sched = some res →
      res.err = none ∧
      ∃ nodes, res.nodes = some nodes ∧ nodes.length = ids.length ∧
        ids.map cur.Nodes = nodes.map some ∧ (checkedNodes res.trace).Perm nodes := by
  have hall' := present_of_ne_none hall
  have htot := checkPhase_total chk ctx cur execCtx ids hctx hall'
  refine ⟨htot.1, htot.2, ?_⟩
  intro sched res hsched h
  obtain ⟨ls, evald, rcvd, hls, hev, _, _, htrace, herr, hnodes, hval⟩ :=
    WaitSelectorReady_run hall' h
  have hmap := map_eq_map_some_filterMap cur ids hall'
  have hnone : res.err = none := by
    rw [herr]
    apply firstErr_eq_none
    intro v hv
    obtain ⟨p, hp, rfl⟩ := List.mem_map.mp hv
    obtain ⟨nd, hnd, hpv⟩ := hval hctx hsched p hp
    obtain ⟨id, hid, hcur⟩ := mem_filterMap_nodes (List.getElem?_mem hnd)
    rw [hpv]
    exact hchk id hid nd hcur
  refine ⟨hnone, ids.filterMap cur.Nodes, by rw [hnodes, if_pos hnone], hmap.2, hmap.1, ?_⟩
  rw [htrace]
  exact checkedNodes_run _ ls evald hls (hmap.2 ▸ hev)

theorem WaitSelectorReady_all_ready_witness :
    liveCtx.done = false ∧ (∀ id ∈ [2, 1], demoFrame.Nodes id ≠ none) ∧
    (∀ id ∈ [2, 1], ∀ n, demoFrame.Nodes id = some n → nilCheck liveCtx 0 n = none) ∧
    (checkPhase nilCheck liveCtx demoFrame 0 [2, 1]
      [.evalCheck 0, .evalCheck 1, .selectSend 0, .recv]).isSome = true ∧
    ([Action.evalCheck 0, .evalCheck 1, .selectSend 0, .recv].length ≤ 3 * [(2 : Int), 1].length ∧
      ((WaitSelectorReady (some nilCheck) liveCtx demoFrame 0 [2, 1]
          [.evalCheck 0, .evalCheck 1, .selectSend 0, .recv]).isSome = false →
        ∃ a, a ≠ Action.cancel ∧
          (checkPhase nilCheck liveCtx demoFrame 0 [2, 1]
            ([.evalCheck 0, .evalCheck 1, .selectSend 0, .recv] ++ [a])).isSome = true) ∧
      ∃ more, Action.cancel ∉ more ∧
        (WaitSelectorReady (some nilCheck) liveCtx demoFrame 0 [2, 1]
          ([.evalCheck 0, .evalCheck 1, .selectSend 0, .recv] ++ more)).isSome = true) ∧
    WaitSelectorReady (some nilCheck) liveCtx demoFrame 0 [2, 1]
      [.evalCheck 1, .evalCheck 0, .selectSend 1, .recv, .selectSend 0, .recv] =
        some readyResult ∧
    readyResult.err = none ∧
    ∃ nodes, readyResult.nodes = some nodes ∧ nodes.length = [(2 : Int), 1].length ∧
      [(2 : Int), 1].map demoFrame.Nodes = nodes.map some ∧
      (checkedNodes readyResult.trace).Perm nodes :=
  ⟨rfl, by decide, fun _ _ _ _ => rfl, by decide,
    (WaitSelectorReady_all_ready nilCheck liveCtx demoFrame 0 [2, 1] rfl (by decide)
      (fun _ _ _ _ => rfl)).2.1
      [.evalCheck 0, .evalCheck 1, .selectSend 0, .recv] (by decide) (by decide),
    rfl,
    (WaitSelectorReady_all_ready nilCheck liveCtx demoFrame 0 [2, 1] rfl (by decide)
      (fun _ _ _ _ => rfl)).2.2
      [.evalCheck 1, .evalCheck 0, .selectSend 1, .recv, .selectSend 0, .recv]
      readyResult (by decide) rfl⟩

/-- C3: when every id is present, the check returns the non-nil error `e` for
exactly one of the resolved nodes and nil for all the others, and the context
is not cancelled, the poll function returns `(nil, e)`, whatever the order in
which the results arrive: the check phase starts; every execution of it has at
most three steps per node; while the poll function has not returned some
goroutine or the receiving loop can take a step, so every execution extends to
one under which it returns; and whenever it returns, it returns `(nil, e)`. -/
theorem WaitSelectorReady_one_failure (chk : CheckFn) (ctx : Context) (cur : Frame)
    (execCtx : Int) (ids : List Int) (n0 : Node) (e : GoError)
    (hctx : ctx.done = false)
    (hall : ∀ id ∈ ids, cur.Nodes id ≠ none)
    (hn0 : ∃ id ∈ ids, cur.Nodes id = some n0)
    (hfail : chk ctx execCtx n0 = some e)
    (hothers : ∀ id ∈ ids, ∀ n, cur.Nodes id = some n → n ≠ n0 → chk ctx execCtx n = none) :
    (checkPhase chk ctx cur execCtx ids []).isSome = true ∧
    (∀ sched, Action.cancel ∉ sched →
      (checkPhase chk ctx cur execCtx ids sched).isSome = true →
      sched.length ≤ 3 * ids.length ∧
      ((WaitSelectorReady (some chk) ctx cur execCtx ids sched).isSome = false →
        ∃ a, a ≠ Action.cancel ∧
          (checkPhase chk ctx cur execCtx ids (sched ++ [a])).isSome = true) ∧
      ∃ more, Action.cancel ∉ more ∧
        (WaitSelectorReady (some chk) ctx cur execCtx ids (sched ++ more)).isSome = true) ∧
    ∀ sched res, Action.cancel ∉ sched →
      WaitSelectorReady (some chk) ctx cur execCtx ids sched = some res →
      res.nodes = none ∧ res.err = some e := by
  have hall' := present_of_ne_none hall
  have htot := checkPhase_total chk ctx cur execCtx ids hctx hall'
  refine ⟨htot.1, htot.2, ?_⟩
  intro sched res hsched h
  obtain ⟨ls, evald, rcvd, hls, hev, hperm, _, htrace, herr, hnodes, hval⟩ :=
    WaitSelectorReady_run hall' h
  have hmap := map_eq_map_some_filterMap cur ids hall'
  have hsome : res.err = some e := by
    rw [herr]
    apply firstErr_eq_some
    · intro v hv
      obtain ⟨p, hp, rfl⟩ := List.mem_map.mp hv
      obtain ⟨nd, hnd, hpv⟩ := hval hctx hsched p hp
      obtain ⟨id, hid, hcur⟩ := mem_filterMap_nodes (List.getElem?_mem hnd)
      rw [hpv]
      by_cases hnd0 : nd = n0
      · right; rw [hnd0, hfail]
      · left; exact hothers id hid nd hcur hnd0
    · obtain ⟨id, hid, hcur⟩ := hn0
      have hmem : n0 ∈ ids.filterMap cur.Nodes := List.mem_filterMap.mpr ⟨id, hid, hcur⟩
      obtain ⟨i0, hi0, hget⟩ := List.getElem_of_mem hmem
      have hi0' : i0 ∈ rcvd.map Prod.fst :=
        hperm.mem_iff.mpr (List.mem_range.mpr (hmap.2 ▸ hi0))
      obtain ⟨p, hp, hp1⟩ := List.mem_map.mp hi0'
      obtain ⟨nd, hnd, hpv⟩ := hval hctx hsched p hp
      rw [hp1, List.getElem?_eq_getElem hi0, hget] at hnd
      simp only [Option.some.injEq] at hnd
      subst hnd
      exact List.mem_map.mpr ⟨p, hp, by rw [hpv, hfail]⟩
  exact ⟨by rw [hnodes, hsome]; simp, hsome⟩

theorem demo_others : ∀ id ∈ [(1 : Int), 2], ∀ n, demoFrame.Nodes id = some n → n ≠ nodeB →
    visibleCheck liveCtx 0 n = none := by
  intro id hid n hn hne
  simp only [List.mem_cons, List.mem_singleton, List.not_mem_nil, or_false] at hid
  rcases hid with rfl | rfl
  · have : n = nodeA := by
      have h : demoFrame.Nodes 1 = some nodeA := by decide
      rw [h] at hn
      exact (Option.some.inj hn).symm
    subst this
    decide
  · have : n = nodeB := by
      have h : demoFrame.Nodes 2 = some nodeB := by decide
      rw [h] at hn
      exact (Option.some.inj hn).symm
    exact absurd this hne

theorem WaitSelectorReady_one_failure_witness :
    liveCtx.done = false ∧ (∀ id ∈ [1, 2], demoFrame.Nodes id ≠ none) ∧
    (∃ id ∈ [1, 2], demoFrame.Nodes id = some nodeB) ∧
    visibleCheck liveCtx 0 nodeB = some ErrNotVisible ∧
    (checkPhase visibleCheck liveCtx demoFrame 0 [1, 2]
      [.evalCheck 0, .evalCheck 1, .selectSend 1, .recv]).isSome = true ∧
    ([Action.evalCheck 0, .evalCheck 1, .selectSend 1, .recv].length ≤ 3 * [(1 : Int), 2].length ∧
      ((WaitSelectorReady (some visibleCheck) liveCtx demoFrame 0 [1, 2]
          [.evalCheck 0, .evalCheck 1, .selectSend 1, .recv]).isSome = false →
        ∃ a, a ≠ Action.cancel ∧
          (checkPhase visibleCheck liveCtx demoFrame 0 [1, 2]
            ([.evalCheck 0, .evalCheck 1, .selectSend 1, .recv] ++ [a])).isSome = true) ∧
      ∃ more, Action.cancel ∉ more ∧
        (WaitSelectorReady (some visibleCheck) liveCtx demoFrame 0 [1, 2]
          ([.evalCheck 0, .evalCheck 1, .selectSend 1, .recv] ++ more)).isSome = true) ∧
    (∀ res,
      WaitSelectorReady (some visibleCheck) liveCtx demoFrame 0 [1, 2]
        [.evalCheck 1, .evalCheck 0, .selectSend 0, .recv, .selectSend 1, .recv] = some res →
      res.nodes = none ∧ res.err = some ErrNotVisible) ∧
    (WaitSelectorReady (some visibleCheck) liveCtx demoFrame 0 [1, 2]
      [.evalCheck 1, .evalCheck 0, .selectSend 0, .recv, .selectSend 1, .recv]).map
        PollResult.observed = some (none, some ErrNotVisible, [nodeB, nodeA]) :=
  ⟨rfl, by decide, ⟨2, by simp, by decide⟩, by decide, by decide,
   (WaitSelectorReady_one_failure visibleCheck liveCtx demoFrame 0 [1, 2] nodeB ErrNotVisible
     rfl (by decide) ⟨2, by simp, by decide⟩ (by decide) demo_others).2.1
     [.evalCheck 0, .evalCheck 1, .selectSend 1, .recv] (by decide) (by decide),
   fun res =>
     (WaitSelectorReady_one_failure visibleCheck liveCtx demoFrame 0 [1, 2] nodeB ErrNotVisible
       rfl (by decide) ⟨2, by simp, by decide⟩ (by decide) demo_others).2.2
       [.evalCheck 1, .evalCheck 0, .selectSend 0, .recv, .selectSend 1, .recv] res
       (by decide),
   by decide⟩

/-- C4 (evaluation at the failing input): the context is already cancelled when
the goroutine starts, the check returns nil.  The goroutine has to run the
check before it reaches its `select` (a schedule that takes the `ctx.Done()`
case first is not an execution); once there, both cases are ready and the send
case may be taken, and the poll function then returns the nodes with a nil
error, not `(nil, ctx.Err())`. -/
theorem WaitSelectorReady_cancelled_reports_check :
    doneCtx.Err = some (GoError.context "context canceled") ∧
    (WaitSelectorReady (some nilCheck) doneCtx demoFrame 0 [1]
      [.evalCheck 0, .selectSend 0, .recv]).map PollResult.observed =
        some (some [nodeA], none, [nodeA]) ∧
    (WaitSelectorReady (some nilCheck) liveCtx demoFrame 0 [1]
      [.cancel, .evalCheck 0, .selectSend 0, .recv]).map PollResult.observed =
        some (some [nodeA], none, [nodeA]) ∧
    (WaitSelectorReady (some nilCheck) doneCtx demoFrame 0 [1]
      [.selectDone 0, .sendCtxErr 0, .recv]).map PollResult.observed = none ∧
    (WaitSelectorReady (some nilCheck) doneCtx demoFrame 0 [1]
      [.evalCheck 0, .selectDone 0, .sendCtxErr 0, .recv]).map PollResult.observed =
        some (none, some (GoError.context "context canceled"), [nodeA]) := by
  refine ⟨by decide, by decide, by decide, by decide, by decide⟩

/-- The error signature `isCouldNotComputeBoxModelError` recognises. -/
theorem isCouldNotComputeBoxModelError_iff (err : GoError) :
    isCouldNotComputeBoxModelError err = true ↔
      err = GoError.protocol (-32000) "Could not compute box model." := by
  cases err <;> simp [isCouldNotComputeBoxModelError]

/-- C5: when the box-model request fails with the protocol error of code -32000
and message "Could not compute box model.", the visibility check returns
`chromedp.ErrNotVisible`, not the protocol error, and makes no further request
(the visibility predicate is not evaluated). -/
theorem NodeVisibleOrRecaptcha_check_no_box_model (d : Driver Bool) (visibleJS : String)
    (n : Node)
    (hbox : d.GetBoxModel n.NodeID =
      .error (GoError.protocol (-32000) "Could not compute box model.")) :
    (NodeVisibleOrRecaptcha.check d visibleJS n).err = some ErrNotVisible ∧
    (NodeVisibleOrRecaptcha.check d visibleJS n).err ≠
      some (GoError.protocol (-32000) "Could not compute box model.") ∧
    (NodeVisibleOrRecaptcha.check d visibleJS n).calls = [DriverCall.getBoxModel n.NodeID] := by
  simp [NodeVisibleOrRecaptcha.check, hbox, isCouldNotComputeBoxModelError, ErrNotVisible]

theorem NodeVisibleOrRecaptcha_check_no_box_model_witness :
    noBoxDriver.GetBoxModel nodeA.NodeID =
      .error (GoError.protocol (-32000) "Could not compute box model.") ∧
    (NodeVisibleOrRecaptcha.check noBoxDriver "visible.js" nodeA).err = some ErrNotVisible ∧
    (NodeVisibleOrRecaptcha.check noBoxDriver "visible.js" nodeA).err ≠
      some (GoError.protocol (-32000) "Could not compute box model.") ∧
    (NodeVisibleOrRecaptcha.check noBoxDriver "visible.js" nodeA).calls =
      [DriverCall.getBoxModel nodeA.NodeID] :=
  ⟨rfl, NodeVisibleOrRecaptcha_check_no_box_model noBoxDriver "visible.js" nodeA rfl⟩

/-- C6: when the box-model request fails with any error other than the protocol
error of code -32000 and message "Could not compute box model.", the visibility
check returns that same error unchanged: it is not replaced by
`chromedp.ErrNotVisible` (the result is the sentinel only if the driver's error
was), and no further request is made. -/
theorem NodeVisibleOrRecaptcha_check_other_box_error (d : Driver Bool) (visibleJS : String)
    (n : Node) (err : GoError)
    (hbox : d.GetBoxModel n.NodeID = .error err)
    (hne : err ≠ GoError.protocol (-32000) "Could not compute box model.") :
    (NodeVisibleOrRecaptcha.check d visibleJS n).err = some err ∧
    ((NodeVisibleOrRecaptcha.check d visibleJS n).err = some ErrNotVisible →
      err = ErrNotVisible) ∧
    (NodeVisibleOrRecaptcha.check d visibleJS n).calls = [DriverCall.getBoxModel n.NodeID] := by
  have hf : isCouldNotComputeBoxModelError err = false := by
    cases h : isCouldNotComputeBoxModelError err with
    | false => rfl
    | true => exact absurd ((isCouldNotComputeBoxModelError_iff err).mp h) hne
  simp only [NodeVisibleOrRecaptcha.check, hbox, hf]
  simp

theorem NodeVisibleOrRecaptcha_check_other_box_error_witness :
    wrongMessageDriver.GetBoxModel nodeA.NodeID =
      .error (GoError.protocol (-32000) "Could not compute box model") ∧
    GoError.protocol (-32000) "Could not compute box model" ≠
      GoError.protocol (-32000) "Could not compute box model." ∧
    (NodeVisibleOrRecaptcha.check wrongMessageDriver "visible.js" nodeA).err =
      some (GoError.protocol (-32000) "Could not compute box model") ∧
    ((NodeVisibleOrRecaptcha.check wrongMessageDriver "visible.js" nodeA).err =
      some ErrNotVisible →
      GoError.protocol (-32000) "Could not compute box model" = ErrNotVisible) ∧
    (NodeVisibleOrRecaptcha.check wrongMessageDriver "visible.js" nodeA).calls =
      [DriverCall.getBoxModel nodeA.NodeID] :=
  ⟨rfl, by decide,
   NodeVisibleOrRecaptcha_check_other_box_error wrongMessageDriver "visible.js" nodeA _ rfl
     (by decide)⟩

/-- C7: when the box-model request succeeds and `callFunctionOnNode` with
`visibleJS` succeeds with boolean result `b`, the visibility check returns
`chromedp.ErrNotVisible` when `b` is false and nil when `b` is true. -/
theorem NodeVisibleOrRecaptcha_check_predicate (d : Driver Bool) (visibleJS : String)
    (n : Node) (b : Bool)
    (hbox : d.GetBoxModel n.NodeID = .ok ())
    (herr : (callFunctionOnNode d n visibleJS false []).err = none)
    (hres : (callFunctionOnNode d n visibleJS false []).res = b) :
    (NodeVisibleOrRecaptcha.check d visibleJS n).err =
      if b then none else some ErrNotVisible := by
  simp only [NodeVisibleOrRecaptcha.check, hbox, herr, hres]
  cases b <;> simp

theorem NodeVisibleOrRecaptcha_check_predicate_witness :
    demoDriver.GetBoxModel nodeB.NodeID = .ok () ∧
    (callFunctionOnNode demoDriver nodeB "visible.js" false []).err = none ∧
    (callFunctionOnNode demoDriver nodeB "visible.js" false []).res = false ∧
    (NodeVisibleOrRecaptcha.check demoDriver "visible.js" nodeB).err =
      (if false then none else some ErrNotVisible) ∧
    (NodeVisibleOrRecaptcha.check demoDriver "visible.js" nodeA).err =
      (if true then none else some ErrNotVisible) :=
  ⟨rfl, by decide, by decide,
   NodeVisibleOrRecaptcha_check_predicate demoDriver "visible.js" nodeB false rfl
     (by decide) (by decide),
   NodeVisibleOrRecaptcha_check_predicate demoDriver "visible.js" nodeA true rfl
     (by decide) (by decide)⟩

/-- C8 (evaluation at the failing input): the node resolves to the remote
object "A" and the function invocation fails.  `callFunctionOnNode` returns the
invocation's error from line 224 and makes no release request for "A"; with the
same node and a driver whose invocation succeeds, the release request follows
the invocation. -/
theorem callFunctionOnNode_failure_skips_release :
    throwingDriver.ResolveNode nodeA.NodeID = .ok { ObjectID := "A" } ∧
    (callFunctionOnNode throwingDriver nodeA "f" false []).err =
      some (GoError.other "exception") ∧
    (callFunctionOnNode throwingDriver nodeA "f" false []).calls =
      [DriverCall.resolveNode 1, DriverCall.callFunctionOn "f" "A"] ∧
    DriverCall.releaseObject "A" ∉ (callFunctionOnNode throwingDriver nodeA "f" false []).calls ∧
    (callFunctionOnNode demoDriver nodeA "f" false []).calls =
      [DriverCall.resolveNode 1, DriverCall.callFunctionOn "f" "A",
        DriverCall.releaseObject "A"] := by
  refine ⟨rfl, by decide, by decide, by decide, by decide⟩

/-- C9: when resolution and the function invocation both succeed,
`callFunctionOnNode` returns a nil error and the invocation's result, whatever
the release request answers: two drivers that differ only in `ReleaseObject`
give the same error and the same result (and both were asked to release). -/
theorem callFunctionOnNode_release_ignored {α : Type} (d : Driver α) (node : Node)
    (function : String) (res : α) (args : List String) (r : RemoteObject) (v : α)
    (rel₁ rel₂ : String → Option GoError)
    (hres : d.ResolveNode node.NodeID = .ok r)
    (hcall : d.CallFunctionOn function r.ObjectID args = .ok v) :
    (callFunctionOnNode { d with ReleaseObject := rel₁ } node function res args).err = none ∧
    (callFunctionOnNode { d with ReleaseObject := rel₁ } node function res args).res = v ∧
    (callFunctionOnNode { d with ReleaseObject := rel₂ } node function res args).err =
      (callFunctionOnNode { d with ReleaseObject := rel₁ } node function res args).err ∧
    (callFunctionOnNode { d with ReleaseObject := rel₂ } node function res args).res =
      (callFunctionOnNode { d with ReleaseObject := rel₁ } node function res args).res ∧
    DriverCall.releaseObject r.ObjectID ∈
      (callFunctionOnNode { d with ReleaseObject := rel₁ } node function res args).calls ∧
    DriverCall.releaseObject r.ObjectID ∈
      (callFunctionOnNode { d with ReleaseObject := rel₂ } node function res args).calls := by
  simp [callFunctionOnNode, hres, hcall]

theorem callFunctionOnNode_release_ignored_witness :
    demoDriver.ResolveNode nodeA.NodeID = .ok { ObjectID := "A" } ∧
    demoDriver.CallFunctionOn "visible.js" "A" [] = .ok true ∧
    (callFunctionOnNode { demoDriver with ReleaseObject := releaseOk } nodeA "visible.js"
      false []).err = none ∧
    (callFunctionOnNode { demoDriver with ReleaseObject := releaseOk } nodeA "visible.js"
      false []).res = true ∧
    (callFunctionOnNode { demoDriver with ReleaseObject := releaseFails } nodeA "visible.js"
      false []).err =
      (callFunctionOnNode { demoDriver with ReleaseObject := releaseOk } nodeA "visible.js"
        false []).err ∧
    (callFunctionOnNode { demoDriver with ReleaseObject := releaseFails } nodeA "visible.js"
      false []).res =
      (callFunctionOnNode { demoDriver with ReleaseObject := releaseOk } nodeA "visible.js"
        false []).res ∧
    DriverCall.releaseObject "A" ∈
      (callFunctionOnNode { demoDriver with ReleaseObject := releaseOk } nodeA "visible.js"
        false []).calls ∧
    DriverCall.releaseObject "A" ∈
      (callFunctionOnNode { demoDriver with ReleaseObject := releaseFails } nodeA "visible.js"
        false []).calls :=
  ⟨rfl, rfl,
   callFunctionOnNode_release_ignored demoDriver nodeA "visible.js" false []
     { ObjectID := "A" } true releaseOk releaseFails rfl rfl⟩

theorem count_lock_events (ls cs : List Event)
    (hls : ∀ ev ∈ ls, ∃ id, ev = Event.lookup id)
    (hcs : ∀ ev ∈ cs, ∃ i n, ev = Event.check i n) :
    (Event.rlock :: ls ++ Event.runlock :: cs).count Event.rlock = 1 ∧
    (Event.rlock :: ls ++ Event.runlock :: cs).count Event.runlock = 1 := by
  have h1 : ls.count Event.rlock = 0 := List.count_eq_zero.mpr fun h => by
    obtain ⟨id, hid⟩ := hls _ h
    exact absurd hid (by simp)
  have h2 : cs.count Event.rlock = 0 := List.count_eq_zero.mpr fun h => by
    obtain ⟨i, n, hin⟩ := hcs _ h
    exact absurd hin (by simp)
  have h3 : ls.count Event.runlock = 0 := List.count_eq_zero.mpr fun h => by
    obtain ⟨id, hid⟩ := hls _ h
    exact absurd hid (by simp)
  have h4 : cs.count Event.runlock = 0 := List.count_eq_zero.mpr fun h => by
    obtain ⟨i, n, hin⟩ := hcs _ h
    exact absurd hin (by simp)
  constructor
  · simp [List.count_cons, List.count_append, h1, h2]
  · simp [List.count_cons, List.count_append, h3, h4]

/-- C10: on every execution path of the poll function (a miss at any index, all
ids present, an empty id list; nil or non-nil check; any scheduling), the read
lock is acquired exactly once and released exactly once, the trace is the
acquisition, then only lookups, then the release, then only check invocations,
and the frame is left as it was found (`Nodes` unchanged, no reader left).  A
complete execution exists for every input. -/
theorem WaitSelectorReady_lock_discipline (check : Option CheckFn) (ctx : Context)
    (cur : Frame) (execCtx : Int) (ids : List Int) :
    (∃ sched, (WaitSelectorReady check ctx cur execCtx ids sched).isSome = true) ∧
    ∀ sched res, WaitSelectorReady check ctx cur execCtx ids sched = some res →
      res.cur = cur ∧
      res.trace.count Event.rlock = 1 ∧ res.trace.count Event.runlock = 1 ∧
      ∃ ls cs, res.trace = Event.rlock :: ls ++ Event.runlock :: cs ∧
        (∀ ev ∈ ls, ∃ id, ev = Event.lookup id) ∧
        (∀ ev ∈ cs, ∃ i n, ev = Event.check i n) := by
  refine ⟨⟨_, WaitSelectorReady_seqSchedule check ctx cur execCtx ids⟩, ?_⟩
  intro sched res h
  have key : res.cur = cur ∧ ∃ ls cs, res.trace = Event.rlock :: ls ++ Event.runlock :: cs ∧
      (∀ ev ∈ ls, ∃ id, ev = Event.lookup id) ∧
      (∀ ev ∈ cs, ∃ i n, ev = Event.check i n) := by
    obtain ⟨ls, hls, hcase⟩ := lookupPhase_spec cur ids
    rcases hcase with ⟨hall, heq⟩ | ⟨_, heq⟩
    · cases check with
      | none =>
        simp only [WaitSelectorReady, heq, Option.some.injEq] at h
        subst h
        exact ⟨rfl, ls, [], by simp, hls, by simp⟩
      | some chk =>
        obtain ⟨ls', evald, _, hls', _, _, hcur, htrace, _⟩ := WaitSelectorReady_run hall h
        refine ⟨hcur, ls', evald.filterMap
          (fun i => (ids.filterMap cur.Nodes)[i]?.map (Event.check i)), ?_, hls', ?_⟩
        · rw [htrace]
          simp
        · intro ev hev
          obtain ⟨i, _, hi⟩ := List.mem_filterMap.mp hev
          obtain ⟨nd, _, hnd⟩ := Option.map_eq_some'.mp hi
          exact ⟨i, nd, hnd.symm⟩
    · simp only [WaitSelectorReady, heq, Option.some.injEq] at h
      subst h
      exact ⟨rfl, ls, [], by simp, hls, by simp⟩
  obtain ⟨hcur, ls, cs, htrace, hls, hcs⟩ := key
  have hc := count_lock_events ls cs hls hcs
  rw [← htrace] at hc
  exact ⟨hcur, hc.1, hc.2, ls, cs, htrace, hls, hcs⟩

theorem WaitSelectorReady_lock_discipline_witness :
    WaitSelectorReady (some visibleCheck) liveCtx demoFrame 0 [1, 2]
      [.evalCheck 1, .evalCheck 0, .selectSend 0, .recv, .selectSend 1, .recv] =
        some notVisibleResult ∧
    notVisibleResult.cur = demoFrame ∧
    notVisibleResult.trace.count Event.rlock = 1 ∧
    notVisibleResult.trace.count Event.runlock = 1 ∧
    ∃ ls cs, notVisibleResult.trace = Event.rlock :: ls ++ Event.runlock :: cs ∧
      (∀ ev ∈ ls, ∃ id, ev = Event.lookup id) ∧
      (∀ ev ∈ cs, ∃ i n, ev = Event.check i n) :=
  ⟨rfl,
   (WaitSelectorReady_lock_discipline (some visibleCheck) liveCtx demoFrame 0 [1, 2]).2
     [.evalCheck 1, .evalCheck 0, .selectSend 0, .recv, .selectSend 1, .recv]
     notVisibleResult rfl⟩

end Testlib
